import Mathlib

/-!
Verification of the gothrottle rate-limited job scheduler.

Shallow embedding of the Go sources:
  - errors.go        : the three sentinel errors
  - options.go       : the Options bundle
  - local_store.go   : LocalStore.Request / RegisterDone / Disconnect
  - redis_store.go   : the Lua admission script and the RedisStore client
  - job.go           : Job and the priority queue
  - limiter.go       : ScheduleWithOptions, processJobs, processRemainingJobs, Stop

Go `int` is modelled as Lean `Int` (no 64-bit overflow is relevant to the
claims).  `time.Time` values are modelled as `Option Int` (milliseconds),
with `none` standing for Go's zero `time.Time{}` (`IsZero() = true`);
`time.Duration` values are modelled as `Int` milliseconds.
-/

namespace Gothrottle

/-- The sentinel errors of errors.go (`ErrStoreClosed`, `ErrMissingID`,
`ErrInvalidWeight`).  `datastoreWrapped` stands for a wrapped backend error
as produced by processJobs. -/
inductive Err where
  | storeClosed
  | missingID
  | invalidWeight
  | datastoreWrapped (inner : Err)
deriving DecidableEq, Repr

/-- Options from options.go.  `MinTime` is in milliseconds. -/
structure Options where
  ID : String
  MaxConcurrent : Int
  MinTime : Int
deriving DecidableEq, Repr

/-- LocalState from local_store.go: per-ID `running` total and the
`lastStart` timestamp (`none` = Go's zero time). -/
structure LocalState where
  running : Int
  lastStart : Option Int
deriving DecidableEq, Repr

/-- The (canRun, waitTime, err) triple returned by Datastore.Request. -/
structure ReqResult where
  canRun : Bool
  waitTime : Int
  err : Option Err
deriving DecidableEq, Repr

/-- LocalStore from local_store.go: a map from limiter ID to its state,
plus the closed flag.  The map is modelled as a total function into
`Option LocalState`; `none` means no record exists for that ID. -/
structure LocalStore where
  state : String → Option LocalState
  closed : Bool

/-- NewLocalStore: fresh store, empty map, not closed. -/
def LocalStore.new : LocalStore := ⟨fun _ => none, false⟩

/-- LocalStore.Request from local_store.go.  `now` is the sampled clock.
Mirrors the source line by line: closed check; get-or-create the record;
the MaxConcurrent gate; the MinTime gate (skipped when `lastStart.IsZero()`,
i.e. `none` here); otherwise grant and update the record. -/
def LocalStore.Request (ls : LocalStore) (limiterID : String) (weight : Int)
    (opts : Options) (now : Int) : ReqResult × LocalStore :=
  if ls.closed then
    (⟨false, 0, some .storeClosed⟩, ls)
  else
    let st := (ls.state limiterID).getD ⟨0, none⟩
    let ls' : LocalStore :=
      ⟨fun id => if id = limiterID then some st else ls.state id, ls.closed⟩
    if opts.MaxConcurrent > 0 ∧ st.running + weight > opts.MaxConcurrent then
      (⟨false, 0, none⟩, ls')
    else
      let grant : ReqResult × LocalStore :=
        (⟨true, 0, none⟩,
         ⟨fun id => if id = limiterID then some ⟨st.running + weight, some now⟩
                    else ls.state id,
          ls.closed⟩)
      match st.lastStart with
      | none => grant
      | some t =>
        if opts.MinTime > 0 ∧ now - t < opts.MinTime then
          (⟨false, opts.MinTime - (now - t), none⟩, ls')
        else grant

/-- LocalStore.RegisterDone from local_store.go: closed check; missing
record is a no-op returning nil; otherwise decrement `running` by `weight`
and clamp at zero. -/
def LocalStore.RegisterDone (ls : LocalStore) (limiterID : String)
    (weight : Int) : Option Err × LocalStore :=
  if ls.closed then
    (some .storeClosed, ls)
  else
    match ls.state limiterID with
    | none => (none, ls)
    | some st =>
      let r := st.running - weight
      let r' := if r < 0 then 0 else r
      (none,
       ⟨fun id => if id = limiterID then some ⟨r', st.lastStart⟩
                  else ls.state id,
        ls.closed⟩)

/-- LocalStore.Disconnect from local_store.go: sets the closed flag and
drops the map; returns nil. -/
def LocalStore.Disconnect (ls : LocalStore) : Option Err × LocalStore :=
  (none, ⟨fun _ => none, true⟩)

/-- Observable: the `running` total recorded for an ID (0 if no record). -/
def LocalStore.runId (ls : LocalStore) (id : String) : Int :=
  ((ls.state id).map LocalState.running).getD 0

/-- Observable: the `lastStart` recorded for an ID (`none` if no record or
the record holds the zero time). -/
def LocalStore.lastId (ls : LocalStore) (id : String) : Option Int :=
  (ls.state id).bind LocalState.lastStart

/-- The Redis hash stored under key `gothrottle:<ID>`: fields `running`
and `last_start` (epoch milliseconds). -/
structure RedisHash where
  running : Int
  last_start : Int
deriving DecidableEq, Repr

/-- The state of the single key `gothrottle:<ID>` the script touches:
`key = none` means the key does not exist (HGETALL returns an empty table,
so both fields read as 0); `pttlMs` is the key's remaining expiry in
milliseconds as set by PEXPIRE (`none` = no expiry set). -/
structure RedisState where
  key : Option RedisHash
  pttlMs : Option Int
deriving DecidableEq, Repr

/-- The key under which a limiter's state lives
(`fmt.Sprintf("gothrottle:%s", limiterID)`). -/
def redisKey (limiterID : String) : String := "gothrottle:" ++ limiterID

/-- The Lua admission script of redis_store.go, ARGV =
[max_concurrent, min_time_ms, weight, current_time_ms].  HGETALL defaults
both fields to 0 when absent; the concurrency gate returns {0, -1}; the
spacing gate returns {0, min_time_ms - elapsed}; a grant does
HINCRBY running weight, HSET last_start current_time_ms, PEXPIRE 30000
and returns {1, 0}. -/
def redisScript (st : RedisState) (max_concurrent min_time_ms weight
    current_time_ms : Int) : (Int × Int) × RedisState :=
  let h := st.key.getD ⟨0, 0⟩
  let running := h.running
  let last_start := h.last_start
  if max_concurrent > 0 ∧ running + weight > max_concurrent then
    ((0, -1), st)
  else
    let elapsed := current_time_ms - last_start
    if min_time_ms > 0 ∧ elapsed < min_time_ms then
      ((0, min_time_ms - elapsed), st)
    else
      ((1, 0), ⟨some ⟨running + weight, current_time_ms⟩, some 30000⟩)

/-- RedisStore from redis_store.go, restricted to the one key the claims
touch.  `clientOpen = false` models `client == nil` after Disconnect. -/
structure RedisStore where
  clientOpen : Bool
  st : RedisState
deriving DecidableEq, Repr

/-- RedisStore.Request: nil-client check, then EvalSha of the script with
ARGV = [MaxConcurrent, MinTime ms, weight, now ms]; `canRun` is
`canRunInt == 1` and any non-positive `wait_ms` is mapped to a zero wait
duration. -/
def RedisStore.Request (rs : RedisStore) (weight : Int) (opts : Options)
    (nowMs : Int) : ReqResult × RedisStore :=
  if rs.clientOpen = false then
    (⟨false, 0, some .storeClosed⟩, rs)
  else
    let r := redisScript rs.st opts.MaxConcurrent opts.MinTime weight nowMs
    let canRun : Bool := r.1.1 = 1
    let waitTime : Int := if r.1.2 > 0 then r.1.2 else 0
    (⟨canRun, waitTime, none⟩, ⟨rs.clientOpen, r.2⟩)

/-- RedisStore.RegisterDone: nil-client check, then a bare
`HINCRBY key running (-weight)` — no clamping.  HINCRBY creates the key
(fields defaulting to 0) when absent and sets no expiry. -/
def RedisStore.RegisterDone (rs : RedisStore) (weight : Int) :
    Option Err × RedisStore :=
  if rs.clientOpen = false then
    (some .storeClosed, rs)
  else
    let h := rs.st.key.getD ⟨0, 0⟩
    (none, ⟨rs.clientOpen, ⟨some ⟨h.running + (-weight), h.last_start⟩, rs.st.pttlMs⟩⟩)

/-- RedisStore.Disconnect: cancels the context, closes the client and sets
it to nil; returns the close error (modelled as nil). -/
def RedisStore.Disconnect (rs : RedisStore) : Option Err × RedisStore :=
  (none, ⟨false, rs.st⟩)

/-- Observable: the `running` field of the Redis key (0 when absent). -/
def RedisStore.runVal (rs : RedisStore) : Int :=
  ((rs.st.key).map RedisHash.running).getD 0

/-- Job from job.go: the scheduling key `Priority` and the cost `Weight`.
`jid` is a ghost identity tag standing for the job's channels, so that
deliveries can be attributed to the right job.  The user task itself is
not part of the pure state; `Action.execute` below records its launch. -/
structure Job where
  Priority : Int
  Weight : Int
  jid : Nat
deriving DecidableEq, Repr

/-- PushJob from job.go: heap.Push appends the job into the heap. -/
def PushJob (q : List Job) (j : Job) : List Job := q ++ [j]

/-- PopJob from job.go: heap.Pop on the max-heap whose Less compares
`Priority` with `>`, so it removes and returns a job of maximal Priority
(nil on empty).  container/heap is Go standard library; this definition
captures its contract on that heap: the returned job has maximal Priority
and the remainder is the rest of the heap. -/
def PopJob : List Job → Option (Job × List Job)
  | [] => none
  | j :: rest =>
    match PopJob rest with
    | none => some (j, [])
    | some (m, rest') =>
      if m.Priority > j.Priority then some (m, j :: rest') else some (j, rest)

/-- An observable step the dispatcher takes on a job: launching its task
in a goroutine, or pushing an error onto its error channel. -/
inductive Action where
  | execute (j : Job)
  | deliverErr (j : Job) (e : Err)
deriving DecidableEq, Repr

/-- The job an action concerns. -/
def Action.job : Action → Job
  | .execute j => j
  | .deliverErr j _ => j

/-- Limiter from limiter.go, with a local datastore.  `stopSignalled`
models `close(l.stopCh)` and `disconnects` counts datastore.Disconnect
calls (a ghost field for the idempotence claim). -/
structure Limiter where
  opts : Options
  datastore : LocalStore
  queue : List Job
  running : Bool
  stopSignalled : Bool
  disconnects : Nat

/-- Limiter.ScheduleWithOptions from limiter.go, up to the blocking wait:
weight ≤ 0 is rejected with ErrInvalidWeight before anything else; then
the job is built and, under the mutex, enqueued unless the limiter is
stopped (ErrStoreClosed).  `jid` is the fresh job's ghost identity. -/
def Limiter.ScheduleWithOptions (l : Limiter) (priority weight : Int)
    (jid : Nat) : Option Err × Limiter :=
  if weight ≤ 0 then
    (some .invalidWeight, l)
  else
    let job : Job := ⟨priority, weight, jid⟩
    if l.running = false then
      (some .storeClosed, l)
    else
      (none, { l with queue := PushJob l.queue job })

/-- What a blocked ScheduleWithOptions caller eventually observes on the
job's two capacity-1 channels: exactly one of a value or an error. -/
inductive Delivered (α : Type) where
  | value (v : α)
  | failure (e : Err)
deriving DecidableEq, Repr

/-- The select at the end of ScheduleWithOptions: a value received on
resultChan is returned as (result, nil); an error received on errorChan
is returned as (nil, err). -/
def awaitJob {α : Type} : Delivered α → Except Err α
  | .value v => .ok v
  | .failure e => .error e

/-- Limiter.processJobs from limiter.go (one tick of the scheduler):
return at once when the queue is empty or the limiter is stopped; pop the
highest-priority job; call datastore.Request; on error deliver the
wrapped error (no re-enqueue); on denial re-enqueue; on grant launch the
job.  Returns the actions taken and the new limiter state. -/
def Limiter.processJobs (l : Limiter) (now : Int) : List Action × Limiter :=
  if l.queue.isEmpty ∨ l.running = false then
    ([], l)
  else
    match PopJob l.queue with
    | none => ([], l)
    | some (job, q') =>
      let rq := l.datastore.Request l.opts.ID job.Weight l.opts now
      match rq.1.err with
      | some e =>
        ([.deliverErr job (.datastoreWrapped e)],
         { l with queue := q', datastore := rq.2 })
      | none =>
        if rq.1.canRun = false then
          ([], { l with queue := PushJob q' job, datastore := rq.2 })
        else
          ([.execute job], { l with queue := q', datastore := rq.2 })

/-- The loop body of Limiter.processRemainingJobs, with explicit fuel:
pop jobs until the queue is empty, sending ErrStoreClosed on each popped
job's error channel and never executing a task.  One pop removes exactly
one job, so fuel `q.length` drains the whole queue. -/
def drainLoop : Nat → List Job → List Action × List Job
  | 0, q => ([], q)
  | Nat.succ n, q =>
    match PopJob q with
    | none => ([], q)
    | some (j, q') =>
      let rec' := drainLoop n q'
      (Action.deliverErr j Err.storeClosed :: rec'.1, rec'.2)

/-- Limiter.processRemainingJobs from limiter.go, on the queue contents:
the drain run at Stop. -/
def processRemainingJobs (q : List Job) : List Action × List Job :=
  drainLoop q.length q

/-- Limiter.Stop from limiter.go: under the mutex, if not running return
nil at once; otherwise flip the flag, close stopCh, wait for the
scheduler, then call datastore.Disconnect. -/
def Limiter.Stop (l : Limiter) : Option Err × Limiter :=
  if l.running = false then
    (none, l)
  else
    let d := l.datastore.Disconnect
    (d.1, { l with running := false, stopSignalled := true,
                   datastore := d.2, disconnects := l.disconnects + 1 })

/-- A store operation step with a positive weight, as issued by the
dispatcher and the workers: a Request (any ID, options and clock sample)
or a RegisterDone. -/
inductive LocalStep : LocalStore → LocalStore → Prop where
  | req (ls : LocalStore) (id : String) (w : Int) (opts : Options)
      (now : Int) (hw : 0 < w) : LocalStep ls (ls.Request id w opts now).2
  | done (ls : LocalStore) (id : String) (w : Int) (hw : 0 < w) :
      LocalStep ls (ls.RegisterDone id w).2

/-- States of the local store reachable from a fresh store by any
interleaving of Request and RegisterDone calls. -/
inductive ReachableLocal : LocalStore → Prop where
  | base : ReachableLocal LocalStore.new
  | step {s s' : LocalStore} : ReachableLocal s → LocalStep s s' →
      ReachableLocal s'

/-- A window event on one limiter ID of the local store: a Request with
its options and clock sample, or a RegisterDone. -/
inductive WEv where
  | req (w : Int) (opts : Options) (now : Int)
  | fin (w : Int)

/-- Run a list of window events against the local store. -/
def runEvs (ls : LocalStore) (id : String) : List WEv → LocalStore
  | [] => ls
  | WEv.req w opts now :: rest => runEvs (ls.Request id w opts now).2 id rest
  | WEv.fin w :: rest => runEvs (ls.RegisterDone id w).2 id rest

/-- Every Request event in the window is granted and every weight is
positive, evaluated against the evolving store. -/
def GrantedAll (ls : LocalStore) (id : String) : List WEv → Prop
  | [] => True
  | WEv.req w opts now :: rest =>
      0 < w ∧ (ls.Request id w opts now).1.canRun = true ∧
      GrantedAll (ls.Request id w opts now).2 id rest
  | WEv.fin w :: rest =>
      0 < w ∧ GrantedAll (ls.RegisterDone id w).2 id rest

/-- The net weight of a window: grants count +w, completions -w. -/
def netSum : List WEv → Int
  | [] => 0
  | WEv.req w _ _ :: rest => w + netSum rest
  | WEv.fin w :: rest => -w + netSum rest

/-- Matching discipline with outstanding allowance `o`: every
RegisterDone in the window releases weight granted earlier in the window
(or part of the allowance), so completions never outrun grants. -/
inductive Bal : Int → List WEv → Prop where
  | nil (o : Int) : Bal o []
  | req (o w : Int) (opts : Options) (now : Int) (rest : List WEv)
      (hw : 0 ≤ w) (h : Bal (o + w) rest) :
      Bal o (WEv.req w opts now :: rest)
  | fin (o w : Int) (rest : List WEv) (hle : w ≤ o) (h : Bal (o - w) rest) :
      Bal o (WEv.fin w :: rest)

/-- A window event against the Redis-backed store. -/
inductive RWEv where
  | req (w : Int) (opts : Options) (now : Int)
  | fin (w : Int)

/-- Run a list of Redis window events. -/
def runRedisEvs (rs : RedisStore) : List RWEv → RedisStore
  | [] => rs
  | RWEv.req w opts now :: rest => runRedisEvs (rs.Request w opts now).2 rest
  | RWEv.fin w :: rest => runRedisEvs (rs.RegisterDone w).2 rest

/-- Every Request event in the Redis window is granted. -/
def RGrantedAll (rs : RedisStore) : List RWEv → Prop
  | [] => True
  | RWEv.req w opts now :: rest =>
      (rs.Request w opts now).1.canRun = true ∧
      RGrantedAll (rs.Request w opts now).2 rest
  | RWEv.fin w :: rest => RGrantedAll (rs.RegisterDone w).2 rest

/-- The net weight of a Redis window. -/
def redisNet : List RWEv → Int
  | [] => 0
  | RWEv.req w _ _ :: rest => w + redisNet rest
  | RWEv.fin w :: rest => -w + redisNet rest

/-- A concrete store with one record, used to instantiate theorems with
hypotheses: ID "a" has running 1 and lastStart 100. -/
def wStore : LocalStore :=
  ⟨fun id => if id = "a" then some ⟨1, some 100⟩ else none, false⟩

/-- A concrete running limiter over a fresh local store, used to
instantiate theorems with hypotheses. -/
def wLimiter : Limiter :=
  ⟨⟨"default", 0, 0⟩, LocalStore.new, [], true, false, 0⟩

/-- A concrete stopped limiter, used to instantiate theorems with
hypotheses. -/
def wStopped : Limiter :=
  ⟨⟨"default", 0, 0⟩, LocalStore.new, [], false, true, 1⟩

/-- The record Request works on: the stored record, or the fresh
zero record it inserts on first reference. -/
def LocalStore.recOf (ls : LocalStore) (id : String) : LocalState :=
  (ls.state id).getD ⟨0, none⟩

/-- The store after Request has ensured the record exists (the state on
the two denial paths). -/
def LocalStore.ins (ls : LocalStore) (id : String) : LocalStore :=
  ⟨fun id' => if id' = id then some (ls.recOf id) else ls.state id', ls.closed⟩

/-- The store after a grant: running increased by the weight, lastStart
stamped with the clock sample. -/
def LocalStore.upd (ls : LocalStore) (id : String) (w now : Int) : LocalStore :=
  ⟨fun id' => if id' = id then some ⟨(ls.recOf id).running + w, some now⟩
              else ls.state id',
   ls.closed⟩

/-- The store after RegisterDone found record `st`: running decremented
by the weight and clamped at zero. -/
def LocalStore.dupd (ls : LocalStore) (id : String) (st : LocalState)
    (w : Int) : LocalStore :=
  ⟨fun id' => if id' = id then
                some ⟨if st.running - w < 0 then 0 else st.running - w,
                      st.lastStart⟩
              else ls.state id',
   ls.closed⟩

/-- Master case analysis of LocalStore.Request: exactly one of the four
source paths is taken — closed store, concurrency denial, spacing denial
(only with a non-zero lastStart), or grant. -/
theorem Request_spec (ls : LocalStore) (id : String) (w : Int)
    (opts : Options) (now : Int) :
    (ls.closed = true ∧
       ls.Request id w opts now = (⟨false, 0, some .storeClosed⟩, ls)) ∨
    (ls.closed = false ∧
       (opts.MaxConcurrent > 0 ∧ (ls.recOf id).running + w > opts.MaxConcurrent) ∧
       ls.Request id w opts now = (⟨false, 0, none⟩, ls.ins id)) ∨
    (ls.closed = false ∧
       ¬(opts.MaxConcurrent > 0 ∧ (ls.recOf id).running + w > opts.MaxConcurrent) ∧
       (∃ t, (ls.recOf id).lastStart = some t ∧
          (opts.MinTime > 0 ∧ now - t < opts.MinTime) ∧
          ls.Request id w opts now =
            (⟨false, opts.MinTime - (now - t), none⟩, ls.ins id))) ∨
    (ls.closed = false ∧
       ¬(opts.MaxConcurrent > 0 ∧ (ls.recOf id).running + w > opts.MaxConcurrent) ∧
       (∀ t, (ls.recOf id).lastStart = some t →
          ¬(opts.MinTime > 0 ∧ now - t < opts.MinTime)) ∧
       ls.Request id w opts now = (⟨true, 0, none⟩, ls.upd id w now)) := by
  unfold LocalStore.recOf LocalStore.ins LocalStore.upd
  by_cases hcl : ls.closed
  · left
    refine ⟨hcl, ?_⟩
    unfold LocalStore.Request
    simp [hcl]
  · right
    have hcl' : ls.closed = false := by simpa using hcl
    unfold LocalStore.Request
    simp only [hcl', Bool.false_eq_true, if_false]
    by_cases hmax : opts.MaxConcurrent > 0 ∧
        ((ls.state id).getD ⟨0, none⟩).running + w > opts.MaxConcurrent
    · left
      rw [if_pos hmax]
      exact ⟨by simp [hcl'], hmax, rfl⟩
    · right
      rw [if_neg hmax]
      rcases hl : ((ls.state id).getD ⟨0, none⟩).lastStart with _ | t
      · right
        simp only [hl]
        refine ⟨by simp [hcl'], hmax, ?_, rfl⟩
        intro t ht
        cases ht
      · simp only [hl]
        by_cases hmin : opts.MinTime > 0 ∧ now - t < opts.MinTime
        · left
          rw [if_pos hmin]
          exact ⟨by simp [hcl'], hmax, t, rfl, hmin, rfl⟩
        · right
          rw [if_neg hmin]
          refine ⟨by simp [hcl'], hmax, ?_, rfl⟩
          intro t' ht'
          cases ht'
          exact hmin

/-- Master case analysis of LocalStore.RegisterDone: closed store,
missing record (no-op), or clamped decrement. -/
theorem RegisterDone_spec (ls : LocalStore) (id : String) (w : Int) :
    (ls.closed = true ∧ ls.RegisterDone id w = (some .storeClosed, ls)) ∨
    (ls.closed = false ∧ ls.state id = none ∧
       ls.RegisterDone id w = (none, ls)) ∨
    (∃ st, ls.closed = false ∧ ls.state id = some st ∧
       ls.RegisterDone id w = (none, ls.dupd id st w)) := by
  by_cases hcl : ls.closed
  · left
    refine ⟨hcl, ?_⟩
    unfold LocalStore.RegisterDone
    simp [hcl]
  · have hcl' : ls.closed = false := by simpa using hcl
    right
    rcases hst : ls.state id with _ | st
    · left
      refine ⟨hcl', rfl, ?_⟩
      unfold LocalStore.RegisterDone
      rw [hcl']
      simp [hst]
    · right
      refine ⟨st, hcl', rfl, ?_⟩
      unfold LocalStore.RegisterDone LocalStore.dupd
      rw [hcl']
      simp only [Bool.false_eq_true, if_false, hst]

/-- The running total of a store whose map sends `id` to `some st`. -/
theorem runId_set (f : String → Option LocalState) (c : Bool) (id : String)
    (st : LocalState) :
    LocalStore.runId ⟨fun id' => if id' = id then some st else f id', c⟩ id
      = st.running := by
  unfold LocalStore.runId
  simp

/-- A map update at `id` leaves every other ID's record alone. -/
theorem state_set_other (f : String → Option LocalState) (c : Bool)
    (id id' : String) (st : LocalState) (h : id' ≠ id) :
    LocalStore.state ⟨fun i => if i = id then some st else f i, c⟩ id' = f id' := by
  simp [h]

/-- The lastStart observable of a store whose map sends `id` to `some st`. -/
theorem lastId_set (f : String → Option LocalState) (c : Bool) (id : String)
    (st : LocalState) :
    LocalStore.lastId ⟨fun id' => if id' = id then some st else f id', c⟩ id
      = st.lastStart := by
  unfold LocalStore.lastId
  simp

/-- The working record's running field is the observable running total. -/
theorem recOf_running (ls : LocalStore) (id : String) :
    (ls.recOf id).running = ls.runId id := by
  unfold LocalStore.recOf LocalStore.runId
  cases ls.state id <;> simp

/-- The working record's lastStart field is the observable lastStart. -/
theorem recOf_lastStart (ls : LocalStore) (id : String) :
    (ls.recOf id).lastStart = ls.lastId id := by
  unfold LocalStore.recOf LocalStore.lastId
  cases ls.state id <;> simp

/-- Inserting the working record changes no observable: running totals,
lastStart stamps and the closed flag all stay, and the record becomes
present. -/
theorem ins_observables (ls : LocalStore) (id : String) :
    (∀ id', (ls.ins id).runId id' = ls.runId id') ∧
    (∀ id', (ls.ins id).lastId id' = ls.lastId id') ∧
    (ls.ins id).closed = ls.closed ∧
    ((ls.ins id).state id).isSome = true := by
  refine ⟨?_, ?_, rfl, ?_⟩
  · intro id'
    by_cases h : id' = id
    · subst h
      show LocalStore.runId ⟨fun i => if i = id' then some (ls.recOf id') else ls.state i, ls.closed⟩ id' = ls.runId id'
      rw [runId_set, recOf_running]
    · show LocalStore.runId (ls.ins id) id' = ls.runId id'
      unfold LocalStore.runId LocalStore.ins
      simp [h]
  · intro id'
    by_cases h : id' = id
    · subst h
      show LocalStore.lastId ⟨fun i => if i = id' then some (ls.recOf id') else ls.state i, ls.closed⟩ id' = ls.lastId id'
      rw [lastId_set, recOf_lastStart]
    · unfold LocalStore.lastId LocalStore.ins
      simp [h]
  · unfold LocalStore.ins
    simp

/-- If the record exists, inserting the working record is the identity. -/
theorem ins_of_isSome (ls : LocalStore) (id : String)
    (h : (ls.state id).isSome = true) : ls.ins id = ls := by
  rcases hst : ls.state id with _ | st
  · rw [hst] at h; cases h
  · unfold LocalStore.ins LocalStore.recOf
    rw [hst]
    cases ls with
    | mk f c =>
      simp only
      congr 1
      funext id'
      by_cases h' : id' = id
      · subst h'
        simp only [if_pos rfl, Option.getD_some]
        exact hst.symm
      · simp [h']

/-- Observables of the store after a grant. -/
theorem upd_observables (ls : LocalStore) (id : String) (w now : Int) :
    (ls.upd id w now).runId id = ls.runId id + w ∧
    (ls.upd id w now).lastId id = some now ∧
    (ls.upd id w now).closed = ls.closed ∧
    ((ls.upd id w now).state id).isSome = true ∧
    (∀ id', id' ≠ id → (ls.upd id w now).state id' = ls.state id') := by
  refine ⟨?_, ?_, rfl, ?_, ?_⟩
  · show LocalStore.runId ⟨fun i => if i = id then some ⟨(ls.recOf id).running + w, some now⟩ else ls.state i, ls.closed⟩ id = ls.runId id + w
    rw [runId_set]
    simp [recOf_running]
  · show LocalStore.lastId ⟨fun i => if i = id then some ⟨(ls.recOf id).running + w, some now⟩ else ls.state i, ls.closed⟩ id = some now
    rw [lastId_set]
  · unfold LocalStore.upd
    simp
  · intro id' h
    unfold LocalStore.upd
    simp [h]

/-- Observables of the store after a clamped decrement. -/
theorem dupd_observables (ls : LocalStore) (id : String) (st : LocalState)
    (w : Int) :
    (ls.dupd id st w).runId id
        = (if st.running - w < 0 then 0 else st.running - w) ∧
    (ls.dupd id st w).lastId id = st.lastStart ∧
    (ls.dupd id st w).closed = ls.closed ∧
    ((ls.dupd id st w).state id).isSome = true ∧
    (∀ id', id' ≠ id → (ls.dupd id st w).state id' = ls.state id') := by
  refine ⟨?_, ?_, rfl, ?_, ?_⟩
  · show LocalStore.runId ⟨fun i => if i = id then some ⟨if st.running - w < 0 then 0 else st.running - w, st.lastStart⟩ else ls.state i, ls.closed⟩ id = _
    rw [runId_set]
  · show LocalStore.lastId ⟨fun i => if i = id then some ⟨if st.running - w < 0 then 0 else st.running - w, st.lastStart⟩ else ls.state i, ls.closed⟩ id = _
    rw [lastId_set]
  · unfold LocalStore.dupd
    simp
  · intro id' h
    unfold LocalStore.dupd
    simp [h]

/-- A recorded lastStart implies the record exists. -/
theorem isSome_of_lastId (ls : LocalStore) (id : String) (t : Int)
    (h : ls.lastId id = some t) : (ls.state id).isSome = true := by
  unfold LocalStore.lastId at h
  rcases hst : ls.state id with _ | st
  · rw [hst] at h; cases h
  · rfl

/-- C1: with the store open and a recorded lastStart t for the ID,
Request follows the three-branch contract: a concurrency denial returns
(false, 0, nil) and leaves running and lastStart unchanged; a spacing
denial returns (false, MinTime - (now - t), nil) and leaves the store
unchanged; otherwise it grants, returning (true, 0, nil), adding the
weight to running and setting lastStart to now. -/
theorem C1_Request_contract (ls : LocalStore) (id : String) (w : Int)
    (opts : Options) (now t : Int)
    (hcl : ls.closed = false) (hlast : ls.lastId id = some t) :
    ((opts.MaxConcurrent > 0 ∧ ls.runId id + w > opts.MaxConcurrent) →
       (ls.Request id w opts now).1 = ⟨false, 0, none⟩ ∧
       (ls.Request id w opts now).2.runId id = ls.runId id ∧
       (ls.Request id w opts now).2.lastId id = ls.lastId id) ∧
    (¬(opts.MaxConcurrent > 0 ∧ ls.runId id + w > opts.MaxConcurrent) →
       (opts.MinTime > 0 ∧ now - t < opts.MinTime) →
       (ls.Request id w opts now).1 = ⟨false, opts.MinTime - (now - t), none⟩ ∧
       (ls.Request id w opts now).2 = ls) ∧
    (¬(opts.MaxConcurrent > 0 ∧ ls.runId id + w > opts.MaxConcurrent) →
       ¬(opts.MinTime > 0 ∧ now - t < opts.MinTime) →
       (ls.Request id w opts now).1 = ⟨true, 0, none⟩ ∧
       (ls.Request id w opts now).2.runId id = ls.runId id + w ∧
       (ls.Request id w opts now).2.lastId id = some now) := by
  have hrec : (ls.recOf id).lastStart = some t := by
    rw [recOf_lastStart]; exact hlast
  have hrun := recOf_running ls id
  have hsome := isSome_of_lastId ls id t hlast
  rcases Request_spec ls id w opts now with
    ⟨h1, _⟩ | ⟨_, hmax, heq⟩ | ⟨_, hmax, t', hlast', hmin, heq⟩ |
    ⟨_, hmax, hnomin, heq⟩
  · rw [hcl] at h1; cases h1
  · rw [hrun] at hmax
    refine ⟨fun _ => ?_, fun hc _ => absurd hmax hc, fun hc _ => absurd hmax hc⟩
    rw [heq]
    exact ⟨rfl, (ins_observables ls id).1 id, (ins_observables ls id).2.1 id⟩
  · have ht' : t' = t := by
      rw [hrec] at hlast'; cases hlast'; rfl
    subst ht'
    rw [hrun] at hmax
    refine ⟨fun hc => absurd hc hmax, fun _ _ => ?_, fun _ hnm => absurd hmin hnm⟩
    rw [heq]
    exact ⟨rfl, ins_of_isSome ls id hsome⟩
  · rw [hrun] at hmax
    refine ⟨fun hc => absurd hc hmax, fun _ hm => absurd hm (hnomin t hrec),
            fun _ _ => ?_⟩
    rw [heq]
    exact ⟨rfl, (upd_observables ls id w now).1, (upd_observables ls id w now).2.1⟩

/-- C1 witness: on the concrete store (running 1, lastStart 100 under
"a"), a request of weight 1 with MaxConcurrent 2, MinTime 50 at clock
120 is a spacing denial with wait 30 and an unchanged store. -/
theorem C1_witness :
    (wStore.Request "a" 1 ⟨"a", 2, 50⟩ 120).1 = ⟨false, 30, none⟩ ∧
    (wStore.Request "a" 1 ⟨"a", 2, 50⟩ 120).2 = wStore := by
  have h := (C1_Request_contract wStore "a" 1 ⟨"a", 2, 50⟩ 120 100
    rfl (by decide)).2.1 (by decide) (by decide)
  simpa using h

/-- C10: when the ID has no recorded grant (absent record or zero-valued
lastStart), an open store's Request never returns a spacing denial: it
either grants, or denies with zero wait through the concurrency gate. -/
theorem C10_first_request_no_spacing_denial (ls : LocalStore) (id : String)
    (w : Int) (opts : Options) (now : Int)
    (hcl : ls.closed = false) (hfresh : ls.lastId id = none) :
    (ls.Request id w opts now).1.canRun = true ∨
    ((ls.Request id w opts now).1 = ⟨false, 0, none⟩ ∧
     opts.MaxConcurrent > 0 ∧ ls.runId id + w > opts.MaxConcurrent) := by
  have hrec : (ls.recOf id).lastStart = none := by
    rw [recOf_lastStart]; exact hfresh
  rcases Request_spec ls id w opts now with
    ⟨h1, _⟩ | ⟨_, hmax, heq⟩ | ⟨_, _, t', hlast', _, _⟩ | ⟨_, _, _, heq⟩
  · rw [hcl] at h1; cases h1
  · right
    rw [heq, ← recOf_running ls id]
    exact ⟨rfl, hmax⟩
  · rw [hrec] at hlast'; cases hlast'
  · left
    rw [heq]

/-- C10 witness: the very first request under "b" on a fresh store with
MinTime 1000 at clock 5 is not spacing-denied (it is granted). -/
theorem C10_witness :
    (LocalStore.new.Request "b" 1 ⟨"b", 0, 1000⟩ 5).1.canRun = true ∨
    ((LocalStore.new.Request "b" 1 ⟨"b", 0, 1000⟩ 5).1 = ⟨false, 0, none⟩ ∧
     (0:Int) > 0 ∧ LocalStore.new.runId "b" + 1 > 0) :=
  C10_first_request_no_spacing_denial LocalStore.new "b" 1 ⟨"b", 0, 1000⟩ 5
    rfl rfl

/-- Master case analysis of the Lua admission script: concurrency denial
{0,-1}, spacing denial {0, wait}, or grant {1,0} with the hash updated
and the expiry refreshed. -/
theorem redisScript_spec (st : RedisState) (mc mt w now : Int) :
    ((mc > 0 ∧ (st.key.getD ⟨0, 0⟩).running + w > mc) ∧
       redisScript st mc mt w now = ((0, -1), st)) ∨
    (¬(mc > 0 ∧ (st.key.getD ⟨0, 0⟩).running + w > mc) ∧
       (mt > 0 ∧ now - (st.key.getD ⟨0, 0⟩).last_start < mt) ∧
       redisScript st mc mt w now
         = ((0, mt - (now - (st.key.getD ⟨0, 0⟩).last_start)), st)) ∨
    (¬(mc > 0 ∧ (st.key.getD ⟨0, 0⟩).running + w > mc) ∧
       ¬(mt > 0 ∧ now - (st.key.getD ⟨0, 0⟩).last_start < mt) ∧
       redisScript st mc mt w now
         = ((1, 0), ⟨some ⟨(st.key.getD ⟨0, 0⟩).running + w, now⟩, some 30000⟩)) := by
  unfold redisScript
  by_cases hmax : mc > 0 ∧ (st.key.getD ⟨0, 0⟩).running + w > mc
  · left
    rw [if_pos hmax]
    exact ⟨hmax, rfl⟩
  · right
    rw [if_neg hmax]
    by_cases hmin : mt > 0 ∧ now - (st.key.getD ⟨0, 0⟩).last_start < mt
    · left
      rw [if_pos hmin]
      exact ⟨hmax, hmin, rfl⟩
    · right
      rw [if_neg hmin]
      exact ⟨hmax, hmin, rfl⟩

/-- C4: the admission script uses key gothrottle:<ID>; it returns [0,-1]
on a concurrency denial, [0, wait] with wait = MinTime_ms - (now_ms -
last_start) > 0 on a spacing denial, and [1,0] on a grant, where the
grant adds the weight to `running`, sets `last_start = now_ms` and
refreshes the key expiry to 30000 ms; the client maps any non-positive
wait_ms to a zero wait duration and grants exactly when the first element
is 1. -/
theorem C4_redis_admission (st : RedisState) (mc mt w now : Int)
    (limiterID : String) (rs : RedisStore) (opts : Options) (w' nowR : Int)
    (hopen : rs.clientOpen = true) :
    (redisKey limiterID = "gothrottle:" ++ limiterID) ∧
    ((mc > 0 ∧ (st.key.getD ⟨0, 0⟩).running + w > mc) →
       redisScript st mc mt w now = ((0, -1), st)) ∧
    (¬(mc > 0 ∧ (st.key.getD ⟨0, 0⟩).running + w > mc) →
       (mt > 0 ∧ now - (st.key.getD ⟨0, 0⟩).last_start < mt) →
       redisScript st mc mt w now
         = ((0, mt - (now - (st.key.getD ⟨0, 0⟩).last_start)), st) ∧
       mt - (now - (st.key.getD ⟨0, 0⟩).last_start) > 0) ∧
    (¬(mc > 0 ∧ (st.key.getD ⟨0, 0⟩).running + w > mc) →
       ¬(mt > 0 ∧ now - (st.key.getD ⟨0, 0⟩).last_start < mt) →
       redisScript st mc mt w now
         = ((1, 0), ⟨some ⟨(st.key.getD ⟨0, 0⟩).running + w, now⟩, some 30000⟩)) ∧
    ((rs.Request w' opts nowR).1.canRun = true ↔
       (redisScript rs.st opts.MaxConcurrent opts.MinTime w' nowR).1.1 = 1) ∧
    ((redisScript rs.st opts.MaxConcurrent opts.MinTime w' nowR).1.2 ≤ 0 →
       (rs.Request w' opts nowR).1.waitTime = 0) ∧
    ((redisScript rs.st opts.MaxConcurrent opts.MinTime w' nowR).1.2 > 0 →
       (rs.Request w' opts nowR).1.waitTime
         = (redisScript rs.st opts.MaxConcurrent opts.MinTime w' nowR).1.2) := by
  refine ⟨rfl, ?_, ?_, ?_, ?_, ?_, ?_⟩
  · intro hmax
    rcases redisScript_spec st mc mt w now with
      ⟨_, heq⟩ | ⟨hnmax, _, _⟩ | ⟨hnmax, _, _⟩
    · exact heq
    · exact absurd hmax hnmax
    · exact absurd hmax hnmax
  · intro hnmax hmin
    rcases redisScript_spec st mc mt w now with
      ⟨hmax, _⟩ | ⟨_, _, heq⟩ | ⟨_, hnmin, _⟩
    · exact absurd hmax hnmax
    · exact ⟨heq, by omega⟩
    · exact absurd hmin hnmin
  · intro hnmax hnmin
    rcases redisScript_spec st mc mt w now with
      ⟨hmax, _⟩ | ⟨_, hmin, _⟩ | ⟨_, _, heq⟩
    · exact absurd hmax hnmax
    · exact absurd hmin hnmin
    · exact heq
  · unfold RedisStore.Request
    rw [hopen]
    simp
  · intro h
    unfold RedisStore.Request
    rw [hopen]
    simp only [Bool.true_eq_false, if_false]
    rw [if_neg (by omega)]
  · intro h
    unfold RedisStore.Request
    rw [hopen]
    simp only [Bool.true_eq_false, if_false]
    rw [if_pos h]

/-- C4 witness: with running 1 and last_start 100 under the key,
MaxConcurrent 2, MinTime 50ms, weight 1 at 120ms the script returns the
spacing denial [0, 30] and leaves the hash alone; the client reports a
30ms wait. -/
theorem C4_witness :
    redisScript ⟨some ⟨1, 100⟩, some 20000⟩ 2 50 1 120
      = ((0, 30), ⟨some ⟨1, 100⟩, some 20000⟩) ∧
    (RedisStore.Request ⟨true, ⟨some ⟨1, 100⟩, some 20000⟩⟩ 1
        ⟨"x", 2, 50⟩ 120).1.waitTime = 30 := by
  have h := C4_redis_admission ⟨some ⟨1, 100⟩, some 20000⟩ 2 50 1 120 "x"
    ⟨true, ⟨some ⟨1, 100⟩, some 20000⟩⟩ ⟨"x", 2, 50⟩ 1 120 rfl
  constructor
  · have h1 := (h.2.2.1 (by decide) (by decide)).1
    rw [h1]
    decide
  · have h2 := h.2.2.2.2.2.2 (by decide)
    rw [h2]
    decide

/-- The Redis hash's running field as read by HGETALL equals the
observable running value. -/
theorem redis_read_running (rs : RedisStore) :
    (rs.st.key.getD ⟨0, 0⟩).running = rs.runVal := by
  unfold RedisStore.runVal
  cases rs.st.key <;> simp

/-- A present record's running field is the observable running total. -/
theorem runId_of_some (ls : LocalStore) (id : String) (st : LocalState)
    (h : ls.state id = some st) : ls.runId id = st.running := by
  unfold LocalStore.runId
  rw [h]
  rfl

/-- C2 counterexample: the claim says RegisterDone clamps running at
zero on the Redis backend too, but RedisStore.RegisterDone is a bare
HINCRBY of -weight: on an absent key (running 0), weight 1 leaves
running = -1 < 0. -/
theorem C2_counterexample :
    (RedisStore.RegisterDone ⟨true, ⟨none, none⟩⟩ 1).2.runVal = -1 ∧
    (RedisStore.RegisterDone ⟨true, ⟨none, none⟩⟩ 1).2.runVal < 0 := by
  decide

/-- C2 amended: on the local backend RegisterDone returns nil, treats a
missing record as a no-op, and decrements running with a clamp at zero;
on the Redis backend it returns nil and decrements running by the weight
without clamping. -/
theorem C2_RegisterDone_amended :
    (∀ (ls : LocalStore) (id : String) (w : Int), ls.closed = false →
       (ls.state id = none → ls.RegisterDone id w = (none, ls)) ∧
       (ls.RegisterDone id w).1 = none ∧
       ((ls.state id).isSome = true →
          (ls.RegisterDone id w).2.runId id = max (ls.runId id - w) 0)) ∧
    (∀ (rs : RedisStore) (w : Int), rs.clientOpen = true →
       (rs.RegisterDone w).1 = none ∧
       (rs.RegisterDone w).2.runVal = rs.runVal - w) := by
  constructor
  · intro ls id w hcl
    rcases RegisterDone_spec ls id w with
      ⟨h1, _⟩ | ⟨_, hnone, heq⟩ | ⟨st, _, hst, heq⟩
    · rw [hcl] at h1; cases h1
    · refine ⟨fun _ => heq, by rw [heq], fun hs => ?_⟩
      rw [hnone] at hs; cases hs
    · refine ⟨fun hn => ?_, by rw [heq], fun _ => ?_⟩
      · rw [hst] at hn; cases hn
      · rw [heq, runId_of_some ls id st hst]
        have := (dupd_observables ls id st w).1
        rw [this]
        split_ifs <;> omega
  · intro rs w hopen
    unfold RedisStore.RegisterDone
    rw [hopen]
    simp only [Bool.true_eq_false, if_false]
    refine ⟨by simp, ?_⟩
    rw [← redis_read_running rs]
    unfold RedisStore.runVal
    simp
    omega

/-- C2 witness: on the concrete local store, RegisterDone "a" 5 clamps
running from 1 to 0; on a Redis store with running 2, weight 3 leaves
running = -1 (no clamp). -/
theorem C2_witness :
    (wStore.RegisterDone "a" 5).2.runId "a" = max (wStore.runId "a" - 5) 0 ∧
    (RedisStore.RegisterDone ⟨true, ⟨some ⟨2, 100⟩, none⟩⟩ 3).2.runVal
      = RedisStore.runVal ⟨true, ⟨some ⟨2, 100⟩, none⟩⟩ - 3 := by
  constructor
  · exact (C2_RegisterDone_amended.1 wStore "a" 5 rfl).2.2 (by decide)
  · exact (C2_RegisterDone_amended.2 ⟨true, ⟨some ⟨2, 100⟩, none⟩⟩ 3 rfl).2

/-- C6: after Disconnect, every Request and every RegisterDone on either
backend returns the StoreClosed error, grants nothing and leaves the
store exactly as Disconnect left it. -/
theorem C6_disconnect_closes (ls : LocalStore) (id : String) (w : Int)
    (opts : Options) (now : Int) (rs : RedisStore) (w2 : Int)
    (opts2 : Options) (now2 : Int) :
    (ls.Disconnect).2.Request id w opts now
      = (⟨false, 0, some .storeClosed⟩, (ls.Disconnect).2) ∧
    (ls.Disconnect).2.RegisterDone id w
      = (some .storeClosed, (ls.Disconnect).2) ∧
    (rs.Disconnect).2.Request w2 opts2 now2
      = (⟨false, 0, some .storeClosed⟩, (rs.Disconnect).2) ∧
    (rs.Disconnect).2.RegisterDone w2
      = (some .storeClosed, (rs.Disconnect).2) := by
  exact ⟨rfl, rfl, rfl, rfl⟩

/-- Stores that agree on an ID's record agree on its running total. -/
theorem runId_congr (ls' ls : LocalStore) (id : String)
    (h : ls'.state id = ls.state id) : ls'.runId id = ls.runId id := by
  unfold LocalStore.runId
  rw [h]

/-- A Request with positive weight keeps every running total
non-negative. -/
theorem Request_preserves_nonneg (ls : LocalStore) (id : String) (w : Int)
    (opts : Options) (now : Int) (hw : 0 < w)
    (h : ∀ id', 0 ≤ ls.runId id') :
    ∀ id', 0 ≤ (ls.Request id w opts now).2.runId id' := by
  intro id'
  rcases Request_spec ls id w opts now with
    ⟨_, heq⟩ | ⟨_, _, heq⟩ | ⟨_, _, t, _, _, heq⟩ | ⟨_, _, _, heq⟩
  · rw [heq]; exact h id'
  · rw [heq, (ins_observables ls id).1 id']; exact h id'
  · rw [heq, (ins_observables ls id).1 id']; exact h id'
  · rw [heq]
    by_cases hid : id' = id
    · subst hid
      rw [(upd_observables ls id' w now).1]
      have := h id'
      omega
    · rw [runId_congr (ls.upd id w now) ls id'
        ((upd_observables ls id w now).2.2.2.2 id' hid)]
      exact h id'

/-- A RegisterDone keeps every running total non-negative (the clamp). -/
theorem RegisterDone_preserves_nonneg (ls : LocalStore) (id : String)
    (w : Int) (h : ∀ id', 0 ≤ ls.runId id') :
    ∀ id', 0 ≤ (ls.RegisterDone id w).2.runId id' := by
  intro id'
  rcases RegisterDone_spec ls id w with
    ⟨_, heq⟩ | ⟨_, _, heq⟩ | ⟨st, _, hst, heq⟩
  · rw [heq]; exact h id'
  · rw [heq]; exact h id'
  · rw [heq]
    by_cases hid : id' = id
    · subst hid
      rw [(dupd_observables ls id' st w).1]
      split_ifs <;> omega
    · rw [runId_congr (ls.dupd id st w) ls id'
        ((dupd_observables ls id st w).2.2.2.2 id' hid)]
      exact h id'

/-- Observables of a granted Request: running grows by the weight, the
closed flag is kept and the record is present afterwards. -/
theorem Request_grant_obs (ls : LocalStore) (id : String) (w : Int)
    (opts : Options) (now : Int)
    (hgrant : (ls.Request id w opts now).1.canRun = true) :
    (ls.Request id w opts now).2.runId id = ls.runId id + w ∧
    (ls.Request id w opts now).2.closed = ls.closed ∧
    ((ls.Request id w opts now).2.state id).isSome = true := by
  rcases Request_spec ls id w opts now with
    ⟨_, heq⟩ | ⟨_, _, heq⟩ | ⟨_, _, t, _, _, heq⟩ | ⟨_, _, _, heq⟩
  · rw [heq] at hgrant; simp at hgrant
  · rw [heq] at hgrant; simp at hgrant
  · rw [heq] at hgrant; simp at hgrant
  · rw [heq]
    exact ⟨(upd_observables ls id w now).1, rfl,
           (upd_observables ls id w now).2.2.2.1⟩

/-- When the store is open, the record exists and the weight does not
exceed the running total, RegisterDone is an exact decrement (the clamp
does not fire). -/
theorem RegisterDone_noclamp (ls : LocalStore) (id : String) (w : Int)
    (hcl : ls.closed = false) (hsome : (ls.state id).isSome = true)
    (hle : w ≤ ls.runId id) :
    (ls.RegisterDone id w).2.runId id = ls.runId id - w ∧
    (ls.RegisterDone id w).2.closed = false ∧
    ((ls.RegisterDone id w).2.state id).isSome = true := by
  rcases RegisterDone_spec ls id w with
    ⟨h1, _⟩ | ⟨_, hnone, _⟩ | ⟨st, _, hst, heq⟩
  · rw [hcl] at h1; cases h1
  · rw [hnone] at hsome; cases hsome
  · have hr := runId_of_some ls id st hst
    rw [hr] at hle
    rw [heq]
    refine ⟨?_, ?_, (dupd_observables ls id st w).2.2.2.1⟩
    · rw [(dupd_observables ls id st w).1, hr]
      have hn : ¬(st.running - w < 0) := by omega
      rw [if_neg hn]
    · rw [(dupd_observables ls id st w).2.2.1, hcl]

/-- Matched completions never outrun the allowance plus the grants. -/
theorem bal_net : ∀ (L : List WEv) (o : Int), 0 ≤ o → Bal o L →
    0 ≤ o + netSum L := by
  intro L
  induction L with
  | nil =>
    intro o ho _
    simpa [netSum] using ho
  | cons e rest ih =>
    intro o ho hb
    cases e with
    | req w opts now =>
      cases hb with
      | req _ _ _ _ _ hw h =>
        have := ih (o + w) (by omega) h
        simp only [netSum]
        omega
    | fin w =>
      cases hb with
      | fin _ _ _ hle h =>
        have := ih (o - w) (by omega) h
        simp only [netSum]
        omega

/-- Running a balanced window of granted Requests and covered
RegisterDones moves the running total by exactly the window's net weight,
keeps the store open and keeps the record present. -/
theorem window_run (id : String) :
    ∀ (L : List WEv) (ls : LocalStore) (o : Int),
      Bal o L → GrantedAll ls id L → ls.closed = false →
      (ls.state id).isSome = true → 0 ≤ o → o ≤ ls.runId id →
      (runEvs ls id L).runId id = ls.runId id + netSum L ∧
      (runEvs ls id L).closed = false ∧
      ((runEvs ls id L).state id).isSome = true := by
  intro L
  induction L with
  | nil =>
    intro ls o _ _ hcl hsome _ _
    exact ⟨by simp [runEvs, netSum], hcl, hsome⟩
  | cons e rest ih =>
    intro ls o hb hg hcl hsome ho hole
    cases e with
    | req w opts now =>
      obtain ⟨hw, hgrant, hrest⟩ := hg
      cases hb with
      | req _ _ _ _ _ hw' hbrest =>
        obtain ⟨hrun, hclosed, hsome'⟩ :=
          Request_grant_obs ls id w opts now hgrant
        have ih' := ih (ls.Request id w opts now).2 (o + w) hbrest hrest
          (by rw [hclosed]; exact hcl) hsome' (by omega)
          (by rw [hrun]; omega)
        refine ⟨?_, ih'.2.1, ih'.2.2⟩
        show (runEvs (ls.Request id w opts now).2 id rest).runId id = _
        rw [ih'.1, hrun]
        simp only [netSum]
        ring
    | fin w =>
      obtain ⟨hw, hrest⟩ := hg
      cases hb with
      | fin _ _ _ hle hbrest =>
        obtain ⟨hrun, hclosed, hsome'⟩ :=
          RegisterDone_noclamp ls id w hcl hsome (by omega)
        have ih' := ih (ls.RegisterDone id w).2 (o - w) hbrest hrest
          hclosed hsome' (by omega) (by rw [hrun]; omega)
        refine ⟨?_, ih'.2.1, ih'.2.2⟩
        show (runEvs (ls.RegisterDone id w).2 id rest).runId id = _
        rw [ih'.1, hrun]
        simp only [netSum]
        ring

/-- RedisStore.Request keeps the client open and, when it grants, adds
the weight to the running field. -/
theorem RedisRequest_obs (rs : RedisStore) (w : Int) (opts : Options)
    (now : Int) (hopen : rs.clientOpen = true) :
    (rs.Request w opts now).2.clientOpen = true ∧
    ((rs.Request w opts now).1.canRun = true →
       (rs.Request w opts now).2.runVal = rs.runVal + w) := by
  unfold RedisStore.Request
  rw [hopen]
  simp only [Bool.true_eq_false, if_false]
  refine ⟨trivial, ?_⟩
  intro hc
  rcases redisScript_spec rs.st opts.MaxConcurrent opts.MinTime w now with
    ⟨_, heq⟩ | ⟨_, _, heq⟩ | ⟨_, _, heq⟩
  · rw [heq] at hc; simp at hc
  · rw [heq] at hc; simp at hc
  · rw [heq, ← redis_read_running rs]
    unfold RedisStore.runVal
    simp

/-- RedisStore.RegisterDone on an open client is an unclamped decrement
and keeps the client open. -/
theorem RedisRegisterDone_obs (rs : RedisStore) (w : Int)
    (hopen : rs.clientOpen = true) :
    (rs.RegisterDone w).2.runVal = rs.runVal - w ∧
    (rs.RegisterDone w).2.clientOpen = true := by
  unfold RedisStore.RegisterDone
  rw [hopen]
  simp only [Bool.true_eq_false, if_false]
  constructor
  · rw [← redis_read_running rs]
    unfold RedisStore.runVal
    simp
    omega
  · trivial

/-- Running a Redis window of granted Requests and RegisterDones moves
the running field by the window's net weight (no clamp exists). -/
theorem redis_window_run : ∀ (L : List RWEv) (rs : RedisStore),
    rs.clientOpen = true → RGrantedAll rs L →
    (runRedisEvs rs L).runVal = rs.runVal + redisNet L ∧
    (runRedisEvs rs L).clientOpen = true := by
  intro L
  induction L with
  | nil =>
    intro rs hopen _
    exact ⟨by simp [runRedisEvs, redisNet], hopen⟩
  | cons e rest ih =>
    intro rs hopen hg
    cases e with
    | req w opts now =>
      obtain ⟨hgrant, hrest⟩ := hg
      obtain ⟨hopen', hrun⟩ := RedisRequest_obs rs w opts now hopen
      have ih' := ih (rs.Request w opts now).2 hopen' hrest
      refine ⟨?_, ih'.2⟩
      show (runRedisEvs (rs.Request w opts now).2 rest).runVal = _
      rw [ih'.1, hrun hgrant]
      simp only [redisNet]
      ring
    | fin w =>
      have hrest : RGrantedAll (rs.RegisterDone w).2 rest := hg
      obtain ⟨hrun, hopen'⟩ := RedisRegisterDone_obs rs w hopen
      have ih' := ih (rs.RegisterDone w).2 hopen' hrest
      refine ⟨?_, ih'.2⟩
      show (runRedisEvs (rs.RegisterDone w).2 rest).runVal = _
      rw [ih'.1, hrun]
      simp only [redisNet]
      ring

/-- C5: from any open pre-state with running(id) >= 0, a granted Request
of weight w followed by any fully matched window of granted Requests
with covering RegisterDones, and then by RegisterDone(id, w), restores
running(id) to its pre-Request value — on the local backend and on the
Redis backend. -/
theorem C5_round_trip :
    (∀ (ls : LocalStore) (id : String) (w : Int) (opts : Options)
       (now : Int) (L : List WEv),
       ls.closed = false → 0 ≤ ls.runId id → 0 < w →
       (ls.Request id w opts now).1.canRun = true →
       Bal 0 L → GrantedAll (ls.Request id w opts now).2 id L →
       netSum L = 0 →
       ((runEvs (ls.Request id w opts now).2 id L).RegisterDone id w).2.runId id
         = ls.runId id) ∧
    (∀ (rs : RedisStore) (w : Int) (opts : Options) (now : Int)
       (L : List RWEv),
       rs.clientOpen = true →
       (rs.Request w opts now).1.canRun = true →
       RGrantedAll (rs.Request w opts now).2 L → redisNet L = 0 →
       ((runRedisEvs (rs.Request w opts now).2 L).RegisterDone w).2.runVal
         = rs.runVal) := by
  constructor
  · intro ls id w opts now L hcl hr0 hw hgrant hbal hgall hnet
    obtain ⟨hrun1, hcl1, hsome1⟩ := Request_grant_obs ls id w opts now hgrant
    have hcl1' : (ls.Request id w opts now).2.closed = false := by
      rw [hcl1]; exact hcl
    obtain ⟨hrun2, hcl2, hsome2⟩ :=
      window_run id L (ls.Request id w opts now).2 0 hbal hgall hcl1' hsome1
        le_rfl (by rw [hrun1]; omega)
    have hfinal := RegisterDone_noclamp (runEvs (ls.Request id w opts now).2 id L)
      id w hcl2 hsome2 (by rw [hrun2, hrun1]; omega)
    rw [hfinal.1, hrun2, hrun1]
    omega
  · intro rs w opts now L hopen hgrant hgall hnet
    obtain ⟨hopen1, hrun1⟩ := RedisRequest_obs rs w opts now hopen
    obtain ⟨hrun2, hopen2⟩ :=
      redis_window_run L (rs.Request w opts now).2 hopen1 hgall
    have hfinal := RedisRegisterDone_obs (runRedisEvs (rs.Request w opts now).2 L)
      w hopen2
    rw [hfinal.1, hrun2, hrun1 hgrant]
    omega

/-- C5 witness: a granted weight-1 request on the fresh local store and
on an open empty Redis store, with the empty window in between, is
cancelled exactly by its RegisterDone. -/
theorem C5_witness :
    ((runEvs (LocalStore.new.Request "a" 1 ⟨"a", 2, 0⟩ 5).2 "a"
        []).RegisterDone "a" 1).2.runId "a" = LocalStore.new.runId "a" ∧
    ((runRedisEvs (RedisStore.Request ⟨true, ⟨none, none⟩⟩ 1
        ⟨"a", 2, 0⟩ 5).2 []).RegisterDone 1).2.runVal
      = RedisStore.runVal ⟨true, ⟨none, none⟩⟩ := by
  constructor
  · exact C5_round_trip.1 LocalStore.new "a" 1 ⟨"a", 2, 0⟩ 5 [] rfl
      (by decide) (by decide) (by decide) (Bal.nil 0) trivial rfl
  · exact C5_round_trip.2 ⟨true, ⟨none, none⟩⟩ 1 ⟨"a", 2, 0⟩ 5 [] rfl
      (by decide) trivial rfl

/-- C3 counterexample: the claimed invariant running(id) >= 0 over every
interleaving of Request and RegisterDone calls from the initial state
fails on the Redis backend: a single RegisterDone of weight 2 from the
fresh open store leaves running = -2 < 0, because the remote completion
accounting is an unclamped HINCRBY. -/
theorem C3_counterexample :
    (RedisStore.RegisterDone ⟨true, ⟨none, none⟩⟩ 2).2.runVal = -2 ∧
    (RedisStore.RegisterDone ⟨true, ⟨none, none⟩⟩ 2).2.runVal < 0 := by
  decide

/-- A grant by the open Redis backend means the concurrency gate did not
fire: it is not the case that MaxConcurrent > 0 and the stored running
plus the weight exceed it. -/
theorem RedisRequest_grant_inv (rs : RedisStore) (w : Int) (opts : Options)
    (now : Int) (hopen : rs.clientOpen = true)
    (hc : (rs.Request w opts now).1.canRun = true) :
    ¬(opts.MaxConcurrent > 0 ∧ rs.runVal + w > opts.MaxConcurrent) := by
  intro hcontra
  have hc' := hc
  simp only [RedisStore.Request, hopen, Bool.true_eq_false, if_false] at hc'
  rcases redisScript_spec rs.st opts.MaxConcurrent opts.MinTime w now with
    ⟨_, heq⟩ | ⟨_, _, heq⟩ | ⟨hnmax, _, _⟩
  · rw [heq] at hc'
    simp at hc'
  · rw [heq] at hc'
    simp at hc'
  · rw [redis_read_running rs] at hnmax
    exact hnmax hcontra

/-- C3 amended: over every state reachable from a fresh local store by
any interleaving of Request and RegisterDone calls with positive weights,
running(id) is non-negative for every id (the local clamp guarantees
this); and on both backends, whenever a Request with MaxConcurrent > 0 is
granted, the running total afterwards stays at or below MaxConcurrent.
On the Redis backend running >= 0 does not hold under such interleavings
(see the counterexample). -/
theorem C3_invariants_amended :
    (∀ s, ReachableLocal s → ∀ id, 0 ≤ s.runId id) ∧
    (∀ s, ReachableLocal s → ∀ (id : String) (w : Int) (opts : Options)
       (now : Int), 0 < w → opts.MaxConcurrent > 0 →
       (s.Request id w opts now).1.canRun = true →
       (s.Request id w opts now).2.runId id ≤ opts.MaxConcurrent) ∧
    (∀ (rs : RedisStore) (w : Int) (opts : Options) (now : Int),
       rs.clientOpen = true → opts.MaxConcurrent > 0 →
       (rs.Request w opts now).1.canRun = true →
       (rs.Request w opts now).2.runVal ≤ opts.MaxConcurrent) := by
  have hinv : ∀ s, ReachableLocal s → ∀ id, 0 ≤ s.runId id := by
    intro s hs
    induction hs with
    | base =>
      intro id
      simp [LocalStore.new, LocalStore.runId]
    | step hr hstep ih =>
      cases hstep with
      | req id w opts now hw =>
        exact Request_preserves_nonneg _ id w opts now hw ih
      | done id w hw =>
        exact RegisterDone_preserves_nonneg _ id w ih
  refine ⟨hinv, ?_, ?_⟩
  · intro s _ id w opts now _ hmax hgrant
    rcases Request_spec s id w opts now with
      ⟨_, heq⟩ | ⟨_, _, heq⟩ | ⟨_, _, t, _, _, heq⟩ | ⟨_, hnmax, _, heq⟩
    · rw [heq] at hgrant; simp at hgrant
    · rw [heq] at hgrant; simp at hgrant
    · rw [heq] at hgrant; simp at hgrant
    · have h1 : ¬((s.recOf id).running + w > opts.MaxConcurrent) :=
        fun hgt => hnmax ⟨hmax, hgt⟩
      have h2 := recOf_running s id
      rw [heq, (upd_observables s id w now).1]
      omega
  · intro rs w opts now hopen hmax hc
    obtain ⟨_, hrun⟩ := RedisRequest_obs rs w opts now hopen
    rw [hrun hc]
    have hinv2 := RedisRequest_grant_inv rs w opts now hopen hc
    omega

/-- C3 amended witness: the fresh local store is reachable with
non-negative totals; a granted weight-1 request under MaxConcurrent 2
respects the cap on the local store and on an open empty Redis store. -/
theorem C3_amended_witness :
    (0:Int) ≤ LocalStore.new.runId "a" ∧
    (LocalStore.new.Request "a" 1 ⟨"a", 2, 0⟩ 7).2.runId "a" ≤ 2 ∧
    (RedisStore.Request ⟨true, ⟨none, none⟩⟩ 1 ⟨"a", 2, 0⟩ 5).2.runVal ≤ 2 := by
  refine ⟨?_, ?_, ?_⟩
  · exact C3_invariants_amended.1 LocalStore.new ReachableLocal.base "a"
  · exact C3_invariants_amended.2.1 LocalStore.new ReachableLocal.base "a" 1
      ⟨"a", 2, 0⟩ 7 (by decide) (by decide) (by decide)
  · exact C3_invariants_amended.2.2 ⟨true, ⟨none, none⟩⟩ 1 ⟨"a", 2, 0⟩ 5
      rfl (by decide) (by decide)

/-- C7: ScheduleWithOptions returns ErrInvalidWeight exactly when the
weight is non-positive, without enqueuing; with a positive weight on a
stopped limiter it returns ErrStoreClosed without enqueuing; otherwise it
enqueues the job and the blocked caller returns whatever is delivered on
the job's channels (the value as (v, nil), the error as (nil, err)). -/
theorem C7_schedule_with_options (l : Limiter) (priority weight : Int)
    (jid : Nat) :
    ((l.ScheduleWithOptions priority weight jid).1 = some .invalidWeight ↔
       weight ≤ 0) ∧
    (weight ≤ 0 →
       l.ScheduleWithOptions priority weight jid = (some .invalidWeight, l)) ∧
    (0 < weight → l.running = false →
       l.ScheduleWithOptions priority weight jid = (some .storeClosed, l)) ∧
    (0 < weight → l.running = true →
       l.ScheduleWithOptions priority weight jid
         = (none, { l with queue := PushJob l.queue ⟨priority, weight, jid⟩ })) ∧
    (∀ (α : Type) (v : α), awaitJob (Delivered.value v) = Except.ok v) ∧
    (∀ (α : Type) (e : Err),
       awaitJob (α := α) (Delivered.failure e) = Except.error e) := by
  unfold Limiter.ScheduleWithOptions
  by_cases hw : weight ≤ 0
  · rw [if_pos hw]
    exact ⟨⟨fun _ => hw, fun _ => rfl⟩, fun _ => rfl,
           fun hpos _ => absurd hw (by omega),
           fun hpos _ => absurd hw (by omega),
           fun α v => rfl, fun α e => rfl⟩
  · rw [if_neg hw]
    by_cases hr : l.running = false
    · rw [if_pos hr]
      refine ⟨⟨fun h => by simp at h, fun h => absurd h hw⟩, fun h => absurd h hw,
              fun _ _ => rfl, fun _ h2 => ?_, fun α v => rfl, fun α e => rfl⟩
      rw [hr] at h2
      cases h2
    · rw [if_neg hr]
      refine ⟨⟨fun h => by simp at h, fun h => absurd h hw⟩, fun h => absurd h hw,
              fun _ h2 => absurd h2 hr, fun _ _ => rfl,
              fun α v => rfl, fun α e => rfl⟩

/-- C7 witness: on the concrete running limiter, weight 0 is rejected
with InvalidWeight and the limiter unchanged; weight 1 is enqueued with
no error; on the stopped limiter weight 1 is rejected with StoreClosed. -/
theorem C7_witness :
    wLimiter.ScheduleWithOptions 5 0 0 = (some .invalidWeight, wLimiter) ∧
    wLimiter.ScheduleWithOptions 5 1 0
      = (none, { wLimiter with queue := PushJob wLimiter.queue ⟨5, 1, 0⟩ }) ∧
    wStopped.ScheduleWithOptions 5 1 0 = (some .storeClosed, wStopped) := by
  refine ⟨?_, ?_, ?_⟩
  · exact (C7_schedule_with_options wLimiter 5 0 0).2.1 (by decide)
  · exact (C7_schedule_with_options wLimiter 5 1 0).2.2.2.1 (by decide) rfl
  · exact (C7_schedule_with_options wStopped 5 1 0).2.2.1 (by decide) rfl

/-- PopJob answers none exactly on the empty queue. -/
theorem popJob_none : ∀ (q : List Job), PopJob q = none ↔ q = [] := by
  intro q
  cases q with
  | nil => simp [PopJob]
  | cons a rest =>
    constructor
    · intro h
      have h' := h
      simp only [PopJob] at h'
      rcases hrec : PopJob rest with _ | p
      · rw [hrec] at h'
        have h2 : some (a, ([] : List Job)) = none := h'
        cases h2
      · obtain ⟨m, rest'⟩ := p
        rw [hrec] at h'
        have h2 : (if m.Priority > a.Priority then some (m, a :: rest')
            else some (a, rest)) = none := h'
        split_ifs at h2 <;> cases h2
    · intro h
      cases h

/-- A popped job together with the remainder is a permutation of the
queue: the heap pop removes exactly one element. -/
theorem popJob_perm : ∀ (q : List Job) (j : Job) (q' : List Job),
    PopJob q = some (j, q') → List.Perm (j :: q') q := by
  intro q
  induction q with
  | nil =>
    intro j q' h
    cases h
  | cons a rest ih =>
    intro j q' h
    rcases hrec : PopJob rest with _ | p
    · have hrest : rest = [] := (popJob_none rest).mp hrec
      subst hrest
      have h2 : some (a, ([] : List Job)) = some (j, q') := h
      cases h2
      exact List.Perm.refl _
    · obtain ⟨m, rest'⟩ := p
      have hperm := ih m rest' hrec
      have h' := h
      simp only [PopJob] at h'
      rw [hrec] at h'
      have h2 : (if m.Priority > a.Priority then some (m, a :: rest')
          else some (a, rest)) = some (j, q') := h'
      split_ifs at h2 with hgt
      · injection h2 with h3
        injection h3 with h4 h5
        rw [← h4, ← h5]
        exact List.Perm.trans (List.Perm.swap a m rest') (hperm.cons a)
      · injection h2 with h3
        injection h3 with h4 h5
        rw [← h4, ← h5]

/-- The drain loop with fuel at least the queue length delivers
ErrStoreClosed to every queued job (and only that), and empties the
queue. -/
theorem drainLoop_spec : ∀ (n : Nat) (q : List Job), q.length ≤ n →
    (∀ a ∈ (drainLoop n q).1, ∃ j, a = Action.deliverErr j Err.storeClosed) ∧
    List.Perm ((drainLoop n q).1.map Action.job) q ∧
    (drainLoop n q).2 = [] := by
  intro n
  induction n with
  | zero =>
    intro q hq
    have hq0 : q = [] := List.length_eq_zero.mp (Nat.le_zero.mp hq)
    subst hq0
    refine ⟨?_, by simp [drainLoop], rfl⟩
    intro a ha
    cases ha
  | succ n ih =>
    intro q hq
    rcases hpop : PopJob q with _ | p
    · have hq0 : q = [] := (popJob_none q).mp hpop
      subst hq0
      have hstep : drainLoop (Nat.succ n) [] = ([], []) := rfl
      rw [hstep]
      refine ⟨?_, by simp, rfl⟩
      intro a ha
      exact absurd ha (by simp)
    · obtain ⟨j, q'⟩ := p
      have hperm := popJob_perm q j q' hpop
      have hlen : q'.length + 1 = q.length := by
        have := hperm.length_eq
        simpa using this
      obtain ⟨iha, ihb, ihc⟩ := ih q' (by omega)
      have hstep : drainLoop (Nat.succ n) q
          = (Action.deliverErr j Err.storeClosed :: (drainLoop n q').1,
             (drainLoop n q').2) := by
        simp only [drainLoop]
        rw [hpop]
      rw [hstep]
      refine ⟨?_, ?_, ihc⟩
      · intro a ha
        rcases List.mem_cons.mp ha with h1 | h2
        · exact ⟨j, h1⟩
        · exact iha a h2
      · simp only [List.map_cons]
        exact List.Perm.trans
          (ihb.cons (Action.job (Action.deliverErr j Err.storeClosed))) hperm

/-- C8: the Stop-time drain delivers ErrStoreClosed to every job still in
the queue — the delivered jobs are exactly the queued ones, every emitted
action is an error delivery (no job's task is executed) — and leaves the
queue empty; moreover a stopped limiter's dispatch tick takes no action
and grants nothing. -/
theorem C8_drain_rejects_jobs (q : List Job) (l : Limiter) (now : Int)
    (hstop : l.running = false) :
    (∀ a ∈ (processRemainingJobs q).1,
       ∃ j, a = Action.deliverErr j Err.storeClosed) ∧
    List.Perm ((processRemainingJobs q).1.map Action.job) q ∧
    (processRemainingJobs q).2 = [] ∧
    l.processJobs now = ([], l) := by
  obtain ⟨ha, hb, hc⟩ := drainLoop_spec q.length q le_rfl
  refine ⟨ha, hb, hc, ?_⟩
  unfold Limiter.processJobs
  rw [if_pos (Or.inr hstop)]

/-- C8 witness: draining a two-job queue delivers StoreClosed to both
jobs, empties the queue, and the stopped limiter's tick does nothing. -/
theorem C8_witness :
    (∀ a ∈ (processRemainingJobs [⟨5, 1, 0⟩, ⟨7, 1, 1⟩]).1,
       ∃ j, a = Action.deliverErr j Err.storeClosed) ∧
    List.Perm ((processRemainingJobs [⟨5, 1, 0⟩, ⟨7, 1, 1⟩]).1.map Action.job)
      [⟨5, 1, 0⟩, ⟨7, 1, 1⟩] ∧
    (processRemainingJobs [⟨5, 1, 0⟩, ⟨7, 1, 1⟩]).2 = [] ∧
    wStopped.processJobs 0 = ([], wStopped) :=
  C8_drain_rejects_jobs [⟨5, 1, 0⟩, ⟨7, 1, 1⟩] wStopped 0 rfl

/-- C9: Stop is idempotent — the first Stop on a running limiter flips
the running flag, signals the dispatcher, calls Disconnect exactly once
and returns nil; a Stop on a non-running limiter returns nil and changes
nothing, so the second Stop neither signals nor disconnects again. -/
theorem C9_stop_idempotent (l : Limiter) :
    (l.running = false → l.Stop = (none, l)) ∧
    (l.running = true →
       (l.Stop).1 = none ∧
       (l.Stop).2.running = false ∧
       (l.Stop).2.stopSignalled = true ∧
       (l.Stop).2.datastore = (l.datastore.Disconnect).2 ∧
       (l.Stop).2.disconnects = l.disconnects + 1 ∧
       (l.Stop).2.Stop = (none, (l.Stop).2)) := by
  constructor
  · intro h
    unfold Limiter.Stop
    rw [if_pos h]
  · intro h
    unfold Limiter.Stop
    rw [if_neg (by rw [h]; simp)]
    refine ⟨rfl, rfl, rfl, rfl, rfl, ?_⟩
    rw [if_pos rfl]

/-- C9 witness: stopping the concrete running limiter returns nil,
disconnects once, and a second Stop returns nil with no further change. -/
theorem C9_witness :
    (wLimiter.Stop).1 = none ∧
    (wLimiter.Stop).2.disconnects = wLimiter.disconnects + 1 ∧
    (wLimiter.Stop).2.Stop = (none, (wLimiter.Stop).2) := by
  have h := (C9_stop_idempotent wLimiter).2 rfl
  exact ⟨h.1, h.2.2.2.2.1, h.2.2.2.2.2⟩

end Gothrottle
